import Mathlib

/-!
Verification of the stream-server control plane (src/api/main.go):
the record Store, the relay (MediaMTX) client, the request handlers and
the startup reconciler, shallowly embedded as pure Lean functions.
Stateful Go code becomes explicit state passing; external HTTP calls
become function parameters describing the relay outcome.
-/

namespace StreamServer

/-! ## Name sanitization (src/api/main.go, `sanitizeName`, lines 263-273)

Characters are modelled through their code points (`Char.toNat`).
`lowerChar` models `strings.ToLower` on the ASCII range (the Go version
also lowers non-ASCII letters, but every non-ASCII character is removed
by the regex step anyway, so the ASCII model agrees with the Go code on
all inputs whose letters are ASCII). `isGoSpace` models `unicode.IsSpace`
on the ASCII range, as used by `strings.TrimSpace`. -/

def lowerChar (c : Char) : Char :=
  if 65 ≤ c.toNat ∧ c.toNat ≤ 90 then Char.ofNat (c.toNat + 32) else c

def isGoSpace (c : Char) : Bool :=
  c.toNat = 32 || c.toNat = 9 || c.toNat = 10 || c.toNat = 11 ||
    c.toNat = 12 || c.toNat = 13

/-- The character class kept by `nameRegex` = `[^a-zA-Z0-9_-]` replacement:
a character survives iff it is in `[a-zA-Z0-9_-]`. -/
def isAllowed (c : Char) : Bool :=
  (97 ≤ c.toNat && c.toNat ≤ 122) || (65 ≤ c.toNat && c.toNat ≤ 90) ||
    (48 ≤ c.toNat && c.toNat ≤ 57) || c.toNat = 95 || c.toNat = 45

/-- `strings.TrimSpace`: drop leading and trailing whitespace. -/
def trimList (l : List Char) : List Char :=
  ((l.dropWhile isGoSpace).reverse.dropWhile isGoSpace).reverse

/-- `strings.ReplaceAll(name, " ", "-")` acts on the single character U+0020. -/
def spaceToHyphen (c : Char) : Char :=
  if c.toNat = 32 then '-' else c

/-- Body of `sanitizeName` on the character list: lower, trim, replace
spaces by hyphens, strip disallowed characters, truncate to 50.  The Go
truncation `name[:50]` slices bytes, but after the regex step every
character is ASCII, so bytes and characters coincide. -/
def sanitizeList (l : List Char) : List Char :=
  ((((trimList (l.map lowerChar)).map spaceToHyphen).filter isAllowed).take 50)

def sanitizeName (s : String) : String :=
  (sanitizeList s.toList).asString

/-! ## Data model (src/api/main.go, lines 55-67) -/

structure Stream where
  name : String
  label : String
  rtspUrl : String
  status : String
  createdAt : String
deriving DecidableEq, Repr

structure AddStreamRequest where
  name : String
  label : String
  rtspUrl : String
deriving DecidableEq, Repr

/-! ## Store (src/api/main.go, lines 79-154)

The Go `map[string]*Stream` always maps a key to a record whose `Name`
field equals that key (both `load` and `Add` insert under `st.Name`), so
the map is modelled as a list of records with pairwise distinct names;
insertion overwrites the record with the matching name. -/

/-- `Store.Get` / map lookup: the record whose name matches, if any. -/
def findStream (store : List Stream) (n : String) : Option Stream :=
  store.find? (fun st => st.name == n)

/-- Map insertion `s.streams[stream.Name] = stream`: overwrite the record
with the same name if present, otherwise add the record. -/
def storePut (store : List Stream) (st : Stream) : List Stream :=
  if store.any (fun x => x.name == st.name) then
    store.map (fun x => if x.name == st.name then st else x)
  else store ++ [st]

/-- `Store.load` (lines 94-108): starting from the empty map, insert every
decoded record under its own name.  The argument is the decoded content of
the snapshot file. -/
def loadStore (file : List Stream) : List Stream :=
  file.foldl storePut []

/-! ## Relay client (src/api/main.go, `MTXClient`, lines 160-251) -/

/-- Outcome of the underlying HTTP POST in `AddPath`: either a transport
error from `client.Do` or a response with a status code and body. -/
inductive HTTPOutcome where
  | netError (msg : String)
  | response (status : Nat) (body : String)
deriving DecidableEq, Repr

/-- Typed outcome of `AddPath` as seen by its callers. -/
inductive AddPathResult where
  | ok
  | mtxError (status : Nat) (body : String)
  | unreachable (msg : String)
deriving DecidableEq, Repr

/-- `AddPath` response handling (lines 183-193): a transport error becomes
the distinct "cannot reach" failure; a response with status ≥ 400 becomes
an error carrying the status code and body; any other response is success. -/
def classifyAddPath : HTTPOutcome → AddPathResult
  | .netError m => .unreachable m
  | .response st body => if 400 ≤ st then .mtxError st body else .ok

/-- The error string the handler surfaces (`err.Error()` of the wrapped
errors built at lines 185 and 191). -/
def addPathErrorString : AddPathResult → Option String
  | .ok => none
  | .mtxError st body => some ("MediaMTX error " ++ toString st ++ ": " ++ body)
  | .unreachable m => some ("cannot reach MediaMTX API: " ++ m)

/-- Runtime path information returned by `ListPaths` (lines 215-222);
only `ready` and the name key are consumed by the handlers. -/
structure PathInfo where
  ready : Bool
  sourceType : Option String
  readers : Nat
deriving DecidableEq, Repr

/-- The map `ListPaths` builds, keyed by path name (lines 240-244). -/
def lookupPath (paths : List (String × PathInfo)) (n : String) : Option PathInfo :=
  (paths.find? (fun q => q.1 == n)).map (fun q => q.2)

/-! ## Add handler (src/api/main.go, `handleAddStream`, lines 276-327)

The JSON body is modelled as an already-decoded `AddStreamRequest`; the
relay call is a function giving the `AddPath` outcome for a (name, source)
pair; the two time reads are the millisecond clock value and the RFC3339
string.  The result records the HTTP-level response, the Store state after
the handler, whether the relay was called, and whether a snapshot persist
(`store.save`, triggered inside `Store.Add`) happened. -/

inductive AddResponse where
  | badRequest (msg : String)
  | conflict (msg : String)
  | badGateway (msg : String)
  | created (st : Stream)
deriving DecidableEq, Repr

structure AddResult where
  response : AddResponse
  store : List Stream
  relayCalled : Bool
  persisted : Bool
deriving DecidableEq, Repr

/-- `strings.HasPrefix`, written as structural recursion on the character
lists so that concrete instances evaluate. -/
def hasPrefixChars : List Char → List Char → Bool
  | [], _ => true
  | _ :: _, [] => false
  | p :: ps, c :: cs => p == c && hasPrefixChars ps cs

/-- URL validation at lines 288-291. -/
def validScheme (url : String) : Bool :=
  hasPrefixChars "rtsp://".toList url.toList ||
    hasPrefixChars "rtsps://".toList url.toList

/-- The name the add handler attempts (lines 293-297): the sanitized
input, or the generated `cam-<milliseconds>` name when it is empty. -/
def attemptedName (reqName : String) (nowMilli : Nat) : String :=
  let n := sanitizeName reqName
  if n = "" then "cam-" ++ toString nowMilli else n

def handleAddStream (req : AddStreamRequest) (store : List Stream)
    (relay : String → String → AddPathResult) (nowMilli : Nat)
    (nowRFC : String) : AddResult :=
  if req.rtspUrl = "" then
    { response := .badRequest "rtspUrl is required",
      store := store, relayCalled := false, persisted := false }
  else if validScheme req.rtspUrl then
    let name := attemptedName req.name nowMilli
    if (findStream store name).isSome then
      { response := .conflict ("Stream " ++ name ++ " already exists"),
        store := store, relayCalled := false, persisted := false }
    else
      match relay name req.rtspUrl with
      | .ok =>
        let label := if req.label = "" then name else req.label
        let st : Stream :=
          { name := name, label := label, rtspUrl := req.rtspUrl,
            status := "connecting", createdAt := nowRFC }
        { response := .created st, store := storePut store st,
          relayCalled := true, persisted := true }
      | .mtxError s b =>
        { response := .badGateway
            ((addPathErrorString (.mtxError s b)).getD ""),
          store := store, relayCalled := true, persisted := false }
      | .unreachable m =>
        { response := .badGateway
            ((addPathErrorString (.unreachable m)).getD ""),
          store := store, relayCalled := true, persisted := false }
  else
    { response := .badRequest "URL must start with rtsp:// or rtsps://",
      store := store, relayCalled := false, persisted := false }

/-! ## List handler (src/api/main.go, `handleListStreams`, lines 330-349)

`Store.List` returns the pointers held in the map, and the handler writes
`st.Status` through them, so the status overlay mutates the Store records
in place.  In the state-passing embedding the handler therefore returns
the new Store contents; the JSON response body is that same record list
(the aliasing makes them one and the same). -/

/-- Per-record status overlay (lines 335-345). -/
def overlayStatus (paths : List (String × PathInfo)) (st : Stream) : Stream :=
  match lookupPath paths st.name with
  | some p => { st with status := if p.ready then "online" else "connecting" }
  | none => { st with status := "offline" }

/-- The list handler: on a relay error the records are untouched; on
success every record gets the recomputed status. Always succeeds. -/
def handleListStreams (store : List Stream)
    (relay : Except String (List (String × PathInfo))) : List Stream :=
  match relay with
  | .error _ => store
  | .ok paths => store.map (overlayStatus paths)

/-! ## Reconciler (src/api/main.go, lines 456-466 and `restoreStreams`,
lines 401-414)

The startup goroutine pings the relay up to `reconcilerAttempts` times,
sleeping `pingIntervalSec` seconds between attempts; on the first success
it re-registers every Store record and stops.  Ping outcomes are modelled
as a function from the attempt index to success. -/

def reconcilerAttempts : Nat := 30

def pingIntervalSec : Nat := 2

/-- The `RegisterPath` calls `restoreStreams` issues: one `(name, source)`
pair per record in the Store. -/
def restoreRegs (store : List Stream) : List (String × String) :=
  store.map (fun st => (st.name, st.rtspUrl))

inductive ReconcileOutcome where
  | restored (regs : List (String × String))
  | timedOut
deriving DecidableEq, Repr

/-- The polling loop: `i` is the current attempt index, `fuel` the number
of attempts left. -/
def reconcileLoop (ping : Nat → Bool) (store : List Stream) :
    Nat → Nat → ReconcileOutcome
  | _, 0 => .timedOut
  | i, fuel + 1 =>
    if ping i then .restored (restoreRegs store)
    else reconcileLoop ping store (i + 1) fuel

def reconciler (ping : Nat → Bool) (store : List Stream) : ReconcileOutcome :=
  reconcileLoop ping store 0 reconcilerAttempts

/-! ## Spec-side definitions

These follow the wording of the specification (not the source); they are
compared with the source-derived definitions above. -/

/-- Written from the claim about name normalization: "lowercasing the
input, collapsing whitespace to hyphens, stripping every character
outside [a-zA-Z0-9_-], and truncating to 50 characters". -/
def specNormalize (s : String) : String :=
  ((((s.toList.map lowerChar).map
      (fun c => if isGoSpace c then '-' else c)).filter isAllowed).take 50).asString

/-- One pass of the amended normalization: each space character becomes a
hyphen, every character outside the allowed class is dropped. -/
def specStripMap : List Char → List Char
  | [] => []
  | c :: cs =>
    let d := if c.toNat = 32 then '-' else c
    if isAllowed d then d :: specStripMap cs else specStripMap cs

/-- The amended normalization: lowercase, trim surrounding whitespace,
replace each space (U+0020) with a hyphen, strip every character outside
[a-zA-Z0-9_-], truncate to 50 characters. -/
def specNormalizeAmended (s : String) : String :=
  ((specStripMap (trimList (s.toList.map lowerChar))).take 50).asString

/-- Written from the claim about list statuses: online if the relay
reports the path ready, connecting if registered but not ready, offline
if the relay has no knowledge of the path. -/
def specStatusWord (paths : List (String × PathInfo)) (n : String) : String :=
  match lookupPath paths n with
  | some p => if p.ready then "online" else "connecting"
  | none => "offline"

/-- A record with the status field erased, for stating that the list
overlay changes nothing but the status. -/
def eraseStatus (st : Stream) : String × String × String × String :=
  (st.name, st.label, st.rtspUrl, st.createdAt)

/-! ## Helper lemmas -/

theorem toNat_ofNat_valid (n : Nat) (h : n < 55296) : (Char.ofNat n).toNat = n := by
  have hv : n.isValidChar := Or.inl h
  rw [Char.ofNat, dif_pos hv]
  simp [Char.ofNatAux, Char.toNat, UInt32.toNat, BitVec.ofNatLt]

/-- Lowercasing never produces an ASCII uppercase letter. -/
theorem lowerChar_not_upper (c : Char) :
    ¬(65 ≤ (lowerChar c).toNat ∧ (lowerChar c).toNat ≤ 90) := by
  unfold lowerChar
  by_cases h : 65 ≤ c.toNat ∧ c.toNat ≤ 90
  · rw [if_pos h, toNat_ofNat_valid _ (by omega)]
    omega
  · rw [if_neg h]
    omega

theorem mem_of_mem_trimList {c : Char} {l : List Char} (h : c ∈ trimList l) :
    c ∈ l := by
  unfold trimList at h
  rw [List.mem_reverse] at h
  have h1 := (List.dropWhile_sublist (l := (l.dropWhile isGoSpace).reverse)
    (p := isGoSpace)).mem h
  rw [List.mem_reverse] at h1
  exact (List.dropWhile_sublist (l := l) (p := isGoSpace)).mem h1

/-- Characters an output of `sanitizeList` can contain: allowed by the
regex class and not uppercase. -/
def sanChar (c : Char) : Prop :=
  isAllowed c = true ∧ ¬(65 ≤ c.toNat ∧ c.toNat ≤ 90)

theorem sanChar_of_mem_sanitizeList {c : Char} {l : List Char}
    (h : c ∈ sanitizeList l) : sanChar c := by
  unfold sanitizeList at h
  have h1 := List.mem_of_mem_take h
  have h2 : isAllowed c = true := List.of_mem_filter h1
  have h3 := List.mem_of_mem_filter h1
  rw [List.mem_map] at h3
  obtain ⟨d, hd, hdc⟩ := h3
  have hd2 := mem_of_mem_trimList hd
  rw [List.mem_map] at hd2
  obtain ⟨e, _, he⟩ := hd2
  refine ⟨h2, ?_⟩
  subst hdc he
  unfold spaceToHyphen
  by_cases hsp : (lowerChar e).toNat = 32
  · rw [if_pos hsp]
    decide
  · rw [if_neg hsp]
    exact lowerChar_not_upper e

theorem sanChar_fixed {c : Char} (h : sanChar c) :
    lowerChar c = c ∧ isGoSpace c = false ∧ spaceToHyphen c = c := by
  obtain ⟨ha, hu⟩ := h
  unfold isAllowed at ha
  simp only [Bool.or_eq_true, Bool.and_eq_true, decide_eq_true_eq] at ha
  refine ⟨?_, ?_, ?_⟩
  · unfold lowerChar
    rw [if_neg hu]
  · unfold isGoSpace
    simp only [Bool.or_eq_false_iff, decide_eq_false_iff_not]
    omega
  · unfold spaceToHyphen
    rw [if_neg (by omega)]

theorem length_sanitizeList_le (l : List Char) :
    (sanitizeList l).length ≤ 50 := by
  unfold sanitizeList
  exact List.length_take_le _ _

/-- Mapping a function that fixes every member is the identity. -/
theorem map_mem_id {α : Type} (f : α → α) (l : List α)
    (h : ∀ a ∈ l, f a = a) : l.map f = l := by
  induction l with
  | nil => rfl
  | cons a as ih =>
    rw [List.map_cons, h a (List.mem_cons_self a as),
      ih (fun x hx => h x (List.mem_cons_of_mem a hx))]

theorem dropWhile_of_all_false (p : Char → Bool) (L : List Char)
    (hL : ∀ c ∈ L, p c = false) : L.dropWhile p = L := by
  rw [List.dropWhile_eq_self_iff]
  intro hl
  rw [hL _ (L.get_mem 0 hl)]
  exact Bool.false_ne_true

theorem trimList_of_all_false (L : List Char)
    (hL : ∀ c ∈ L, isGoSpace c = false) : trimList L = L := by
  unfold trimList
  rw [dropWhile_of_all_false _ _ hL,
    dropWhile_of_all_false _ _ (fun c hc => hL c (List.mem_reverse.mp hc)),
    List.reverse_reverse]

/-- `sanitizeList` leaves its own output unchanged. -/
theorem sanitizeList_sanitizeList (l : List Char) :
    sanitizeList (sanitizeList l) = sanitizeList l := by
  have hall : ∀ c ∈ sanitizeList l, sanChar c :=
    fun c hc => sanChar_of_mem_sanitizeList hc
  have hmap : (sanitizeList l).map lowerChar = sanitizeList l :=
    map_mem_id _ _ (fun c hc => (sanChar_fixed (hall c hc)).1)
  have htrim : trimList (sanitizeList l) = sanitizeList l :=
    trimList_of_all_false _ (fun c hc => (sanChar_fixed (hall c hc)).2.1)
  have hhyph : (sanitizeList l).map spaceToHyphen = sanitizeList l :=
    map_mem_id _ _ (fun c hc => (sanChar_fixed (hall c hc)).2.2)
  have hfilt : (sanitizeList l).filter isAllowed = sanitizeList l :=
    List.filter_eq_self.mpr (fun c hc => (hall c hc).1)
  show ((((trimList ((sanitizeList l).map lowerChar)).map
    spaceToHyphen).filter isAllowed).take 50) = sanitizeList l
  rw [hmap, htrim, hhyph, hfilt]
  exact List.take_of_length_le (length_sanitizeList_le l)

/-- The one-pass spec normalization agrees with map-then-filter. -/
theorem specStripMap_eq (l : List Char) :
    specStripMap l = (l.map spaceToHyphen).filter isAllowed := by
  induction l with
  | nil => rfl
  | cons c cs ih =>
    simp only [specStripMap, spaceToHyphen, List.map_cons, List.filter_cons, ih]

/-- The source sanitizer equals the amended spec normalization. -/
theorem sanitizeName_eq_specNormalizeAmended (s : String) :
    sanitizeName s = specNormalizeAmended s := by
  unfold sanitizeName specNormalizeAmended sanitizeList
  rw [specStripMap_eq]

/-- Looking up the inserted name after a map insertion finds the new
record. -/
theorem findStream_storePut_same (store : List Stream) (st : Stream) :
    findStream (storePut store st) st.name = some st := by
  unfold storePut findStream
  by_cases h : store.any (fun x => x.name == st.name) = true
  · rw [if_pos h, List.find?_map]
    have hp : ((fun x : Stream => x.name == st.name) ∘
        (fun x => if x.name == st.name then st else x)) =
        fun x : Stream => x.name == st.name := by
      funext x
      by_cases hx : x.name = st.name
      · simp [hx]
      · simp [hx]
    rw [hp]
    obtain ⟨x0, hx0, hpx0⟩ := List.any_eq_true.mp h
    have hsome : (store.find? (fun x : Stream => x.name == st.name)).isSome :=
      List.find?_isSome.mpr ⟨x0, hx0, hpx0⟩
    obtain ⟨y, hy⟩ := Option.isSome_iff_exists.mp hsome
    rw [hy]
    have hpy := List.find?_some hy
    simp only [beq_iff_eq] at hpy
    simp [hpy]
  · rw [if_neg h]
    have hnone : store.find? (fun x : Stream => x.name == st.name) = none := by
      apply List.find?_eq_none.mpr
      intro x hx
      have := List.any_eq_false.mp (Bool.eq_false_iff.mpr h) x hx
      simp_all
    rw [List.find?_append, hnone]
    simp

/-- Inserting a name that is not in the map appends the record. -/
theorem storePut_of_not_present (acc : List Stream) (st : Stream)
    (h : acc.any (fun x => x.name == st.name) = false) :
    storePut acc st = acc ++ [st] := by
  unfold storePut
  rw [if_neg (by rw [h]; exact Bool.false_ne_true)]

/-- Replaying a list of records with pairwise distinct names into a map
accumulator keeps lookups: the result looks up like the concatenation. -/
theorem foldl_storePut_lookup (l : List Stream) : ∀ (acc : List Stream),
    ((acc ++ l).map (fun st => st.name)).Nodup →
    ∀ n, findStream (l.foldl storePut acc) n = findStream (acc ++ l) n := by
  induction l with
  | nil =>
    intro acc _ n
    rw [List.append_nil, List.foldl_nil]
  | cons st l ih =>
    intro acc hnodup n
    have hnotin : st.name ∉ acc.map (fun x => x.name) := by
      intro hmem
      have hsplit := hnodup
      rw [List.map_append, List.nodup_append] at hsplit
      exact hsplit.2.2 hmem (by
        rw [List.map_cons]
        exact List.mem_cons_self _ _)
    have hany : acc.any (fun x => x.name == st.name) = false := by
      apply List.any_eq_false.mpr
      intro x hx hbeq
      rw [beq_iff_eq] at hbeq
      exact hnotin (hbeq ▸ List.mem_map_of_mem (fun x => x.name) hx)
    rw [List.foldl_cons, storePut_of_not_present acc st hany,
      ih (acc ++ [st]) (by rwa [List.append_assoc, List.singleton_append]) n,
      List.append_assoc, List.singleton_append]

/-- Lookup only depends on the set of records when names are unique. -/
theorem findStream_perm {p m : List Stream} (hperm : p.Perm m)
    (hnodup : (m.map (fun st => st.name)).Nodup) (n : String) :
    findStream p n = findStream m n := by
  unfold findStream
  cases hm : m.find? (fun st => st.name == n) with
  | none =>
    apply List.find?_eq_none.mpr
    intro x hx
    exact List.find?_eq_none.mp hm x (hperm.subset hx)
  | some st =>
    have hmem : st ∈ m := List.mem_of_find?_eq_some hm
    have hst := List.find?_some hm
    cases hp : p.find? (fun st => st.name == n) with
    | none =>
      exact absurd hst (List.find?_eq_none.mp hp st (hperm.mem_iff.mpr hmem))
    | some y =>
      have hymem : y ∈ p := List.mem_of_find?_eq_some hp
      have hy := List.find?_some hp
      rw [beq_iff_eq] at hst hy
      rw [List.inj_on_of_nodup_map hnodup (hperm.subset hymem) hmem
        (by rw [hst, hy])]

/-- The status overlay only rewrites the status field. -/
theorem overlayStatus_name (paths : List (String × PathInfo)) (st : Stream) :
    (overlayStatus paths st).name = st.name := by
  unfold overlayStatus
  cases lookupPath paths st.name <;> rfl

theorem overlayStatus_status (paths : List (String × PathInfo)) (st : Stream) :
    (overlayStatus paths st).status = specStatusWord paths st.name := by
  unfold overlayStatus specStatusWord
  cases lookupPath paths st.name <;> rfl

theorem overlayStatus_erase (paths : List (String × PathInfo)) (st : Stream) :
    eraseStatus (overlayStatus paths st) = eraseStatus st := by
  unfold overlayStatus eraseStatus
  cases lookupPath paths st.name <;> rfl

/-- The reconciler times out when every attempt in the budget fails. -/
theorem reconcileLoop_timeout (ping : Nat → Bool) (store : List Stream) :
    ∀ (fuel i : Nat), (∀ j, j < fuel → ping (i + j) = false) →
    reconcileLoop ping store i fuel = .timedOut := by
  intro fuel
  induction fuel with
  | zero => intro i _; rfl
  | succ fuel ih =>
    intro i h
    show (if ping i then _ else _) = _
    rw [show ping i = false from by simpa using h 0 (Nat.succ_pos fuel),
      if_neg (by exact Bool.false_ne_true)]
    exact ih (i + 1) (fun j hj => by
      rw [Nat.add_right_comm]
      exact h (j + 1) (by omega))

/-- The reconciler restores on the first successful attempt inside the
budget. -/
theorem reconcileLoop_first_success (ping : Nat → Bool) (store : List Stream) :
    ∀ (fuel i k : Nat), k < fuel → ping (i + k) = true →
    (∀ j, j < k → ping (i + j) = false) →
    reconcileLoop ping store i fuel = .restored (restoreRegs store) := by
  intro fuel
  induction fuel with
  | zero => intro i k hk; omega
  | succ fuel ih =>
    intro i k hk hping hbefore
    show (if ping i then _ else _) = _
    cases k with
    | zero =>
      rw [Nat.add_zero] at hping
      rw [hping, if_pos rfl]
    | succ k =>
      rw [show ping i = false from by simpa using hbefore 0 (Nat.succ_pos k),
        if_neg (by exact Bool.false_ne_true)]
      exact ih (i + 1) k (by omega)
        (by rwa [Nat.add_right_comm])
        (fun j hj => by
          rw [Nat.add_right_comm]
          exact hbefore (j + 1) (by omega))

/-- A restored outcome can only arise from a successful attempt inside
the budget, and it registers exactly the Store records. -/
theorem reconcileLoop_restored_ping (ping : Nat → Bool) (store : List Stream) :
    ∀ (fuel i : Nat) (regs : List (String × String)),
    reconcileLoop ping store i fuel = .restored regs →
    (∃ j, j < fuel ∧ ping (i + j) = true) ∧ regs = restoreRegs store := by
  intro fuel
  induction fuel with
  | zero => intro i regs h; exact absurd h (by simp [reconcileLoop])
  | succ fuel ih =>
    intro i regs h
    rw [show reconcileLoop ping store i (fuel + 1) =
      (if ping i then .restored (restoreRegs store)
        else reconcileLoop ping store (i + 1) fuel) from rfl] at h
    by_cases hp : ping i = true
    · rw [if_pos hp] at h
      cases h
      exact ⟨⟨0, Nat.succ_pos fuel, by rwa [Nat.add_zero]⟩, rfl⟩
    · rw [if_neg hp] at h
      obtain ⟨⟨j, hj, hpj⟩, hregs⟩ := ih (i + 1) regs h
      exact ⟨⟨j + 1, by omega, by rwa [Nat.add_right_comm] at hpj⟩, hregs⟩

/-- `find?` through the name-preserving status overlay. -/
theorem findStream_map_overlay (store : List Stream)
    (paths : List (String × PathInfo)) (n : String) :
    findStream (store.map (overlayStatus paths)) n =
      (findStream store n).map (overlayStatus paths) := by
  unfold findStream
  have hpred : ((fun st : Stream => st.name == n) ∘ overlayStatus paths) =
      fun st : Stream => st.name == n := by
    funext st
    simp [Function.comp, overlayStatus_name]
  rw [List.find?_map, hpred]

/-! ## Claims -/

/-- Claim C9: the name normalization function is idempotent: for every
input string, applying `sanitizeName` to its own output returns that
output unchanged. -/
theorem sanitizeName_idempotent (s : String) :
    sanitizeName (sanitizeName s) = sanitizeName s := by
  unfold sanitizeName
  rw [show (sanitizeList s.toList).asString.toList = sanitizeList s.toList
    from rfl, sanitizeList_sanitizeList]

/-- Claim C3, counterexample: the claim says the stored name is the input
lowercased with whitespace collapsed to hyphens and disallowed characters
stripped; but the code only replaces the space character U+0020, while all
other whitespace is stripped by the regex.  On the input name containing a
tab, the stored record gets name "ab", not the "a-b" the claimed
normalization produces. -/
theorem stored_name_refutes_whitespace_collapse :
    ((handleAddStream ⟨"a\tb", "", "rtsp://cam"⟩ []
        (fun _ _ => .ok) 0 "t").store.map (fun st => st.name)) = ["ab"] ∧
      specNormalize "a\tb" = "a-b" ∧ ("ab" : String) ≠ "a-b" :=
  ⟨by decide, by decide, by decide⟩

/-- Claim C3 as amended: the stored record's name is the input lowercased,
trimmed of surrounding whitespace, with each space character (U+0020)
replaced by a hyphen, every character outside [a-zA-Z0-9_-] stripped, and
the result truncated to 50 characters; when that normalization is empty
the name is instead the generated "cam-" ++ current milliseconds. -/
theorem stored_name_is_normalized (req : AddStreamRequest)
    (store : List Stream) (relay : String → String → AddPathResult)
    (nowMilli : Nat) (nowRFC : String)
    (hne : req.rtspUrl ≠ "") (hsch : validScheme req.rtspUrl = true)
    (hdup : findStream store (attemptedName req.name nowMilli) = none)
    (hok : relay (attemptedName req.name nowMilli) req.rtspUrl = .ok) :
    ∃ st : Stream,
      (handleAddStream req store relay nowMilli nowRFC).response = .created st ∧
      st.name = (if specNormalizeAmended req.name = "" then
        "cam-" ++ toString nowMilli else specNormalizeAmended req.name) ∧
      findStream (handleAddStream req store relay nowMilli nowRFC).store
        st.name = some st := by
  unfold handleAddStream
  rw [if_neg hne, if_pos hsch]
  simp only [hdup, Option.isSome_none, Bool.false_eq_true, if_false, hok]
  refine ⟨_, rfl, ?_, ?_⟩
  · show attemptedName req.name nowMilli = _
    unfold attemptedName
    rw [sanitizeName_eq_specNormalizeAmended]
  · exact findStream_storePut_same store _

/-- Witness for `stored_name_is_normalized`: a concrete add whose name
"My Cam" normalizes to "my-cam". -/
theorem stored_name_is_normalized_witness :
    ∃ st : Stream,
      (handleAddStream ⟨"My Cam", "lobby", "rtsp://u"⟩ []
        (fun _ _ => .ok) 7 "t").response = .created st ∧
      st.name = (if specNormalizeAmended "My Cam" = "" then
        "cam-" ++ toString 7 else specNormalizeAmended "My Cam") ∧
      findStream (handleAddStream ⟨"My Cam", "lobby", "rtsp://u"⟩ []
        (fun _ _ => .ok) 7 "t").store st.name = some st :=
  stored_name_is_normalized ⟨"My Cam", "lobby", "rtsp://u"⟩ []
    (fun _ _ => .ok) 7 "t" (by decide) (by decide) (by decide) (by decide)

/-- Claim C5, counterexample: the claim says every non-2xx relay response
to `AddPath` is surfaced as a failure, but the code only treats status
≥ 400 as failure, so the non-2xx status 302 is surfaced as success. -/
theorem addPath_302_surfaced_as_success :
    classifyAddPath (.response 302 "moved") = .ok ∧ 300 ≤ 302 :=
  ⟨by decide, by decide⟩

/-- Claim C5 as amended: a relay response with status ≥ 400 is surfaced as
a failure carrying the relay's status code and message, a response with
status < 400 (in particular every 2xx) is surfaced as success, and a
network-level error is surfaced as a distinct unreachable failure, never
equal to a status-carrying failure. -/
theorem addPath_outcome_classification (st : Nat) (body m : String) :
    (400 ≤ st → classifyAddPath (.response st body) = .mtxError st body) ∧
    (st < 400 → classifyAddPath (.response st body) = .ok) ∧
    classifyAddPath (.netError m) = .unreachable m ∧
    (∀ s b, AddPathResult.unreachable m ≠ .mtxError s b ∧
      AddPathResult.unreachable m ≠ .ok) := by
  refine ⟨fun h => ?_, fun h => ?_, rfl, fun s b => ⟨fun h => ?_, fun h => ?_⟩⟩
  · show (if 400 ≤ st then AddPathResult.mtxError st body else .ok) = _
    rw [if_pos h]
  · show (if 400 ≤ st then AddPathResult.mtxError st body else .ok) = _
    rw [if_neg (by omega)]
  · cases h
  · cases h

/-- Witness for `addPath_outcome_classification` at status 503. -/
theorem addPath_outcome_classification_witness :
    classifyAddPath (.response 503 "busy") = .mtxError 503 "busy" :=
  (addPath_outcome_classification 503 "busy" "m").1 (by decide)

/-- Claim C1: if the relay call inside the add handler fails, the
operation aborts with a gateway failure, the Store is unchanged, no
record for the attempted name is present afterward, and no snapshot
persist is triggered. -/
theorem add_relay_failure_aborts (req : AddStreamRequest)
    (store : List Stream) (relay : String → String → AddPathResult)
    (nowMilli : Nat) (nowRFC : String)
    (hne : req.rtspUrl ≠ "") (hsch : validScheme req.rtspUrl = true)
    (hdup : findStream store (attemptedName req.name nowMilli) = none)
    (hfail : relay (attemptedName req.name nowMilli) req.rtspUrl ≠ .ok) :
    (∃ m, (handleAddStream req store relay nowMilli nowRFC).response =
        .badGateway m) ∧
    (handleAddStream req store relay nowMilli nowRFC).store = store ∧
    (handleAddStream req store relay nowMilli nowRFC).persisted = false ∧
    findStream (handleAddStream req store relay nowMilli nowRFC).store
      (attemptedName req.name nowMilli) = none := by
  unfold handleAddStream
  rw [if_neg hne, if_pos hsch]
  simp only [hdup, Option.isSome_none, Bool.false_eq_true, if_false]
  cases hcase : relay (attemptedName req.name nowMilli) req.rtspUrl with
  | ok => exact absurd hcase hfail
  | mtxError s b => exact ⟨⟨_, rfl⟩, rfl, rfl, hdup⟩
  | unreachable m => exact ⟨⟨_, rfl⟩, rfl, rfl, hdup⟩

/-- Witness for `add_relay_failure_aborts`: a concrete add against an
unreachable relay leaves the empty Store empty. -/
theorem add_relay_failure_aborts_witness :
    (∃ m, (handleAddStream ⟨"cam1", "", "rtsp://a"⟩ []
        (fun _ _ => .unreachable "down") 0 "t").response = .badGateway m) ∧
    (handleAddStream ⟨"cam1", "", "rtsp://a"⟩ []
        (fun _ _ => .unreachable "down") 0 "t").store = [] ∧
    (handleAddStream ⟨"cam1", "", "rtsp://a"⟩ []
        (fun _ _ => .unreachable "down") 0 "t").persisted = false ∧
    findStream (handleAddStream ⟨"cam1", "", "rtsp://a"⟩ []
        (fun _ _ => .unreachable "down") 0 "t").store
      (attemptedName "cam1" 0) = none :=
  add_relay_failure_aborts ⟨"cam1", "", "rtsp://a"⟩ []
    (fun _ _ => .unreachable "down") 0 "t"
    (by decide) (by decide) rfl (by decide)

/-- Claim C2: an add request whose name normalizes to a name already in
the Store is rejected with a conflict outcome before any relay call, and
the Store — including the existing record under that name — is unchanged
and not re-persisted. -/
theorem duplicate_add_conflict (req : AddStreamRequest)
    (store : List Stream) (relay : String → String → AddPathResult)
    (nowMilli : Nat) (nowRFC : String) (st0 : Stream)
    (hne : req.rtspUrl ≠ "") (hsch : validScheme req.rtspUrl = true)
    (hdup : findStream store (attemptedName req.name nowMilli) = some st0) :
    (handleAddStream req store relay nowMilli nowRFC).response =
      .conflict ("Stream " ++ attemptedName req.name nowMilli ++
        " already exists") ∧
    (handleAddStream req store relay nowMilli nowRFC).store = store ∧
    (handleAddStream req store relay nowMilli nowRFC).relayCalled = false ∧
    (handleAddStream req store relay nowMilli nowRFC).persisted = false ∧
    findStream (handleAddStream req store relay nowMilli nowRFC).store
      (attemptedName req.name nowMilli) = some st0 := by
  unfold handleAddStream
  rw [if_neg hne, if_pos hsch]
  simp [hdup]

/-- Witness for `duplicate_add_conflict`: re-adding the name cam1 while a
cam1 record is in the Store. -/
theorem duplicate_add_conflict_witness :
    (handleAddStream ⟨"cam1", "", "rtsp://b"⟩
        [⟨"cam1", "cam1", "rtsp://a", "connecting", "t"⟩]
        (fun _ _ => .ok) 5 "u").response =
      .conflict ("Stream " ++ attemptedName "cam1" 5 ++ " already exists") ∧
    (handleAddStream ⟨"cam1", "", "rtsp://b"⟩
        [⟨"cam1", "cam1", "rtsp://a", "connecting", "t"⟩]
        (fun _ _ => .ok) 5 "u").store =
      [⟨"cam1", "cam1", "rtsp://a", "connecting", "t"⟩] ∧
    (handleAddStream ⟨"cam1", "", "rtsp://b"⟩
        [⟨"cam1", "cam1", "rtsp://a", "connecting", "t"⟩]
        (fun _ _ => .ok) 5 "u").relayCalled = false ∧
    (handleAddStream ⟨"cam1", "", "rtsp://b"⟩
        [⟨"cam1", "cam1", "rtsp://a", "connecting", "t"⟩]
        (fun _ _ => .ok) 5 "u").persisted = false ∧
    findStream (handleAddStream ⟨"cam1", "", "rtsp://b"⟩
        [⟨"cam1", "cam1", "rtsp://a", "connecting", "t"⟩]
        (fun _ _ => .ok) 5 "u").store (attemptedName "cam1" 5) =
      some ⟨"cam1", "cam1", "rtsp://a", "connecting", "t"⟩ :=
  duplicate_add_conflict ⟨"cam1", "", "rtsp://b"⟩
    [⟨"cam1", "cam1", "rtsp://a", "connecting", "t"⟩]
    (fun _ _ => .ok) 5 "u" ⟨"cam1", "cam1", "rtsp://a", "connecting", "t"⟩
    (by decide) (by decide) (by decide)

/-- Claim C6: for every Store content (whose names are unique, the map
invariant), persisting — which serializes the map entries in an arbitrary
iteration order — and loading the result into a fresh Store reproduces an
equivalent record set: every name looks up to the identical record, so
the same names with the same sourceURL, label and createdAt. -/
theorem persist_load_roundtrip (m p : List Stream) (hperm : p.Perm m)
    (hnodup : (m.map (fun st => st.name)).Nodup) (n : String) :
    findStream (loadStore p) n = findStream m n := by
  have hnp : (p.map (fun st => st.name)).Nodup :=
    (hperm.map (fun st => st.name)).nodup_iff.mpr hnodup
  unfold loadStore
  rw [foldl_storePut_lookup p [] (by simpa using hnp) n, List.nil_append]
  exact findStream_perm hperm hnodup n

/-- Witness for `persist_load_roundtrip`: a two-record store serialized
in reversed iteration order. -/
theorem persist_load_roundtrip_witness :
    findStream (loadStore [⟨"b", "lb", "rtsp://b", "online", "t2"⟩,
      ⟨"a", "la", "rtsp://a", "connecting", "t1"⟩]) "a" =
    findStream [⟨"a", "la", "rtsp://a", "connecting", "t1"⟩,
      ⟨"b", "lb", "rtsp://b", "online", "t2"⟩] "a" :=
  persist_load_roundtrip
    [⟨"a", "la", "rtsp://a", "connecting", "t1"⟩,
      ⟨"b", "lb", "rtsp://b", "online", "t2"⟩]
    [⟨"b", "lb", "rtsp://b", "online", "t2"⟩,
      ⟨"a", "la", "rtsp://a", "connecting", "t1"⟩]
    (List.Perm.swap (⟨"a", "la", "rtsp://a", "connecting", "t1"⟩ : Stream)
      (⟨"b", "lb", "rtsp://b", "online", "t2"⟩ : Stream) [])
    (by decide) "a"

/-- Claim C7: on every list query the statuses are recomputed from the
relay path table — online when ready, connecting when registered but not
ready, offline when unknown — every other field is untouched, and when
the relay call fails the records (hence their previously known statuses)
are returned untouched; the operation succeeds in both cases. -/
theorem list_status_recompute (store : List Stream) (e : String)
    (paths : List (String × PathInfo)) :
    handleListStreams store (.error e) = store ∧
    (handleListStreams store (.ok paths)).map (fun st => st.status) =
      store.map (fun st => specStatusWord paths st.name) ∧
    (handleListStreams store (.ok paths)).map eraseStatus =
      store.map eraseStatus := by
  refine ⟨rfl, ?_, ?_⟩
  · show (store.map (overlayStatus paths)).map (fun st => st.status) = _
    rw [List.map_map]
    exact List.map_congr_left (fun st _ => overlayStatus_status paths st)
  · show (store.map (overlayStatus paths)).map eraseStatus = _
    rw [List.map_map]
    exact List.map_congr_left (fun st _ => overlayStatus_erase paths st)

/-- Claim C8: the startup reconciler polls Ping for at most 30 attempts
(2 seconds apart, a 60-second budget) and always terminates (the loop is
structurally bounded by its fuel): it never registers a record before the
first successful ping (a restored outcome implies some ping in the budget
succeeded), on the first successful ping it registers exactly one
(name, source) pair per record then in the Store, and when every attempt
in the budget fails it gives up with no registrations. -/
theorem reconciler_spec (ping : Nat → Bool) (store : List Stream) :
    ((∀ i, i < reconcilerAttempts → ping i = false) →
      reconciler ping store = .timedOut) ∧
    (∀ k, k < reconcilerAttempts → ping k = true →
      (∀ j, j < k → ping j = false) →
      reconciler ping store = .restored (restoreRegs store)) ∧
    (∀ regs, reconciler ping store = .restored regs →
      (∃ j, j < reconcilerAttempts ∧ ping j = true) ∧
      regs = restoreRegs store) ∧
    reconcilerAttempts * pingIntervalSec = 60 := by
  refine ⟨fun h => ?_, fun k hk hp hb => ?_, fun regs h => ?_, rfl⟩
  · exact reconcileLoop_timeout ping store reconcilerAttempts 0
      (fun j hj => by simpa using h j hj)
  · exact reconcileLoop_first_success ping store reconcilerAttempts 0 k hk
      (by simpa using hp) (fun j hj => by simpa using hb j hj)
  · have hres := reconcileLoop_restored_ping ping store reconcilerAttempts
      0 regs h
    simpa using hres

/-- Witness for `reconciler_spec`: with the first successful ping at
attempt 2, the reconciler restores the single stored record. -/
theorem reconciler_spec_witness :
    reconciler (fun i => decide (i = 2))
      [⟨"a", "a", "rtsp://u", "connecting", "t"⟩] =
    .restored (restoreRegs [⟨"a", "a", "rtsp://u", "connecting", "t"⟩]) :=
  (reconciler_spec (fun i => decide (i = 2))
    [⟨"a", "a", "rtsp://u", "connecting", "t"⟩]).2.1 2 (by decide)
    (by decide) (by decide)

/-- Claim C10: the list handler's status overlay writes through to the
Store's records (`Store.List` hands out the map's own pointers, modelled
here by the handler returning the updated Store): a Get after a
successful list query returns the record with the recomputed status, and
the record set a subsequent persist would dump is exactly the updated
one returned by the handler. -/
theorem list_overlay_writes_through (store : List Stream)
    (paths : List (String × PathInfo)) (n : String) :
    findStream (handleListStreams store (.ok paths)) n =
      (findStream store n).map (overlayStatus paths) ∧
    (findStream (handleListStreams store (.ok paths)) n).map
        (fun st => st.status) =
      (findStream store n).map (fun st => specStatusWord paths st.name) := by
  have h1 : findStream (handleListStreams store (.ok paths)) n =
      (findStream store n).map (overlayStatus paths) :=
    findStream_map_overlay store paths n
  refine ⟨h1, ?_⟩
  rw [h1]
  cases findStream store n with
  | none => rfl
  | some st => simp [overlayStatus_status]

end StreamServer
